import Mathlib

/-!
Verification of the collaborative-terminal server (`collab-terminal/server.py`):
a shallow embedding of its room registry, PTY process table, broadcast
functions and WebSocket handler, with theorems about participant-count
broadcasts, output fan-out, teardown and error behaviour.

Modelling conventions:
* a WebSocket client is a `Nat`; the module-level dicts `rooms` and
  `pty_processes` are total functions `String → Option _`;
* OS effects (`os.kill`, `os.close`, `os.write`, the TIOCSWINSZ ioctl) are
  recorded in logs / a kernel-winsize map inside `ServerState`;
* a send over a WebSocket is recorded as a delivery `(client, OutMsg)`;
  a send that raises is modelled by membership of the client in an
  explicit `failing` set of broken connections.
-/

namespace CollabTerm

/-- Update a `String`-keyed table at one key (models `d[k] = v` / `del d[k]`). -/
def updTable {β : Type} (f : String → Option β) (k : String) (v : Option β) :
    String → Option β :=
  fun x => if x = k then v else f x

/-- Update a `Nat`-keyed table at one key. -/
def updFd {β : Type} (f : Nat → Option β) (k : Nat) (v : Option β) :
    Nat → Option β :=
  fun x => if x = k then v else f x

/-- Entry of `pty_processes[room_id]`: the dict `{'master_fd': …, 'pid': …}`. -/
structure PtyProc where
  master_fd : Nat
  pid : Nat
deriving DecidableEq, Repr

/-- An outbound JSON message: `{'type': 'output', 'data': …}` or
`{'type': 'users', 'count': …}`. -/
inductive OutMsg where
  | output (data : List Char)
  | users (count : Nat)
deriving DecidableEq, Repr

/-- A decoded inbound client message (`msg['type']` of `'input'` or `'resize'`). -/
inductive ClientMsg where
  | input (data : List Char)
  | resize (rows cols : Nat)
deriving DecidableEq, Repr

/-- An inbound frame as seen by `websocket_endpoint`'s loop: either text that
`json.loads` decodes into a well-formed message, or text on which decoding
fails (malformed JSON, or a dict without the expected keys), in which case the
Python code raises out of the loop. -/
inductive RawMsg where
  | valid (m : ClientMsg)
  | malformed
deriving DecidableEq, Repr

/-- What one iteration of `read_pty`'s loop observes from
`select.select` + `os.read`: a (nonempty) chunk of bytes, `b''` meaning the
child has exited (`closed`), or a select timeout with no data. -/
inductive ReadEvent where
  | data (bytes : List Nat)
  | closed
  | timeout
deriving DecidableEq, Repr

/-- The server's global state: the two module-level dicts plus the modelled
OS state (kernel window size per master fd, logs of writes, kills and closes)
and fresh-id counters for `pty.openpty` / `os.fork`. -/
structure ServerState where
  rooms : String → Option (Finset Nat)
  pty_processes : String → Option PtyProc
  winsize : Nat → Option (Nat × Nat)
  ptyWrites : List (Nat × List Nat)
  killed : List Nat
  closedFds : List Nat
  nextFd : Nat
  nextPid : Nat

/-- A send over one client's WebSocket: `(client, message)`. -/
abbrev Delivery := Nat × OutMsg

/-! ### UTF-8 (models `str.encode()` and `bytes.decode('utf-8', errors='replace')`) -/

/-- UTF-8 encoding of one character (as byte values). -/
def utf8EncodeChar (c : Char) : List Nat :=
  let n := c.toNat
  if n < 0x80 then [n]
  else if n < 0x800 then [0xC0 + n / 64, 0x80 + n % 64]
  else if n < 0x10000 then
    [0xE0 + n / 4096, 0x80 + n / 64 % 64, 0x80 + n % 64]
  else
    [0xF0 + n / 262144, 0x80 + n / 4096 % 64, 0x80 + n / 64 % 64, 0x80 + n % 64]

/-- UTF-8 encoding of a string, as `str.encode()` produces. -/
def utf8Encode (s : List Char) : List Nat :=
  (s.map utf8EncodeChar).flatten

/-- The replacement character U+FFFD produced by `errors='replace'`. -/
def replacementChar : Char := Char.ofNat 0xFFFD

/-- Is `b` a UTF-8 continuation byte within `[lo, hi]`? -/
def contOk (lo hi b : Nat) : Bool := lo ≤ b && b ≤ hi

/-- Decode one UTF-8 sequence starting at lead byte `b`, given the remaining
bytes; returns the decoded character (U+FFFD on an invalid or truncated
sequence, consuming its maximal valid subpart, as CPython's `errors='replace'`
does) and the bytes not consumed. -/
def utf8Step (b : Nat) (rest : List Nat) : Char × List Nat :=
  if b < 0x80 then (Char.ofNat b, rest)
  else if b < 0xC2 then (replacementChar, rest)
  else if b < 0xE0 then
    match rest with
    | b1 :: r1 =>
      if contOk 0x80 0xBF b1 then
        (Char.ofNat ((b - 0xC0) * 64 + (b1 - 0x80)), r1)
      else (replacementChar, b1 :: r1)
    | [] => (replacementChar, [])
  else if b < 0xF0 then
    let lo1 := if b = 0xE0 then 0xA0 else 0x80
    let hi1 := if b = 0xED then 0x9F else 0xBF
    match rest with
    | b1 :: r1 =>
      if contOk lo1 hi1 b1 then
        match r1 with
        | b2 :: r2 =>
          if contOk 0x80 0xBF b2 then
            (Char.ofNat ((b - 0xE0) * 4096 + (b1 - 0x80) * 64 + (b2 - 0x80)), r2)
          else (replacementChar, b2 :: r2)
        | [] => (replacementChar, [])
      else (replacementChar, b1 :: r1)
    | [] => (replacementChar, [])
  else if b < 0xF5 then
    let lo1 := if b = 0xF0 then 0x90 else 0x80
    let hi1 := if b = 0xF4 then 0x8F else 0xBF
    match rest with
    | b1 :: r1 =>
      if contOk lo1 hi1 b1 then
        match r1 with
        | b2 :: r2 =>
          if contOk 0x80 0xBF b2 then
            match r2 with
            | b3 :: r3 =>
              if contOk 0x80 0xBF b3 then
                (Char.ofNat
                  ((b - 0xF0) * 262144 + (b1 - 0x80) * 4096 +
                    (b2 - 0x80) * 64 + (b3 - 0x80)), r3)
              else (replacementChar, b3 :: r3)
            | [] => (replacementChar, [])
          else (replacementChar, b2 :: r2)
        | [] => (replacementChar, [])
      else (replacementChar, b1 :: r1)
    | [] => (replacementChar, [])
  else (replacementChar, rest)

/-- Fueled driver for UTF-8 decoding with replacement; each step consumes at
least the lead byte, so fuel equal to the byte count always suffices. -/
def utf8DecodeReplaceAux : Nat → List Nat → List Char
  | 0, _ => []
  | _ + 1, [] => []
  | fuel + 1, b :: rest =>
    let s := utf8Step b rest
    s.1 :: utf8DecodeReplaceAux fuel s.2

/-- `bytes.decode('utf-8', errors='replace')` on a list of byte values. -/
def utf8DecodeReplace (l : List Nat) : List Char :=
  utf8DecodeReplaceAux l.length l

/-! ### Server operations (from `server.py`) -/

/-- Iteration order over a room's socket set (`for ws in rooms[room_id]`):
Python's set order is unspecified, modelled here as ascending order,
enumerated as the members below the set's maximum. -/
def members (s : Finset Nat) : List Nat :=
  (List.range (s.sup id + 1)).filter (fun a => decide (a ∈ s))

/-- `broadcast_users` (lines 268-280): if the room has no entry, return
immediately; otherwise send `{'type':'users','count':len(rooms[room_id])}` to
every socket in the room.  A send that raises is swallowed (`except: pass`)
without touching the set, so the result is the list of attempted sends. -/
def broadcast_users (st : ServerState) (room : String) : List Delivery :=
  match st.rooms room with
  | none => []
  | some s => (members s).map (fun ws => (ws, OutMsg.users s.card))

/-- `broadcast_output` (lines 251-265): if the room has no entry, return
immediately; otherwise send `{'type':'output','data':data}` to every socket in
the room, collecting the sockets whose send raised (`failing`) into
`disconnected` and removing them from the set afterwards. -/
def broadcast_output (st : ServerState) (room : String) (data : List Char)
    (failing : Finset Nat) : ServerState × List Delivery :=
  match st.rooms room with
  | none => (st, [])
  | some s =>
    let delivered := (members s).filter (fun ws => decide (ws ∉ failing))
    ({ st with rooms := updTable st.rooms room (some (s \ failing)) },
      delivered.map (fun ws => (ws, OutMsg.output data)))

/-- The join part of `websocket_endpoint` (lines 164-196): accept, add the
socket to the room's set (creating the set if absent), spawn the PTY child
with a fresh master fd and pid if the room has no process yet, and broadcast
the user count. -/
def join (st : ServerState) (room : String) (ws : Nat) :
    ServerState × List Delivery :=
  let s := (st.rooms room).getD ∅
  let st1 := { st with rooms := updTable st.rooms room (some (insert ws s)) }
  let st2 :=
    match st1.pty_processes room with
    | some _ => st1
    | none =>
      { st1 with
        pty_processes := updTable st1.pty_processes room
          (some ⟨st1.nextFd, st1.nextPid⟩),
        nextFd := st1.nextFd + 1, nextPid := st1.nextPid + 1 }
  (st2, broadcast_users st2 room)

/-- The `finally` block of `websocket_endpoint` (lines 214-227):
`rooms[room_id].discard(websocket)` (the indexing raises `KeyError` when the
room's entry is gone), rebroadcast the user count, and if the set is now empty
delete the room entry, kill the child with signal 9, close the master fd and
delete the process entry (kill/close failures are swallowed). -/
def leave (st : ServerState) (room : String) (ws : Nat) :
    Except String (ServerState × List Delivery) :=
  match st.rooms room with
  | none => Except.error "KeyError"
  | some s =>
    let s' := s.erase ws
    let st1 := { st with rooms := updTable st.rooms room (some s') }
    let ds := broadcast_users st1 room
    if s' = ∅ then
      let st2 := { st1 with rooms := updTable st1.rooms room none }
      match st2.pty_processes room with
      | some p =>
        Except.ok
          ({ st2 with
              killed := p.pid :: st2.killed,
              closedFds := p.master_fd :: st2.closedFds,
              pty_processes := updTable st2.pty_processes room none }, ds)
      | none => Except.ok (st2, ds)
    else Except.ok (st1, ds)

/-- The message dispatch inside the receive loop (lines 203-210).
`input`: if the room has a process entry, `os.write` the UTF-8 encoding of the
data to its master fd, else do nothing.  `resize`: if the room has a process
entry, `struct.pack('HHHH', rows, cols, 0, 0)` — which raises `struct.error`
unless both fit in an unsigned short — then the TIOCSWINSZ ioctl sets the
kernel window size of the master fd; with no process entry, do nothing. -/
def handle_msg (st : ServerState) (room : String) (m : ClientMsg) :
    Except String ServerState :=
  match m with
  | .input data =>
    match st.pty_processes room with
    | some p =>
      Except.ok
        { st with ptyWrites := (p.master_fd, utf8Encode data) :: st.ptyWrites }
    | none => Except.ok st
  | .resize rows cols =>
    match st.pty_processes room with
    | some p =>
      if rows ≤ 0xFFFF ∧ cols ≤ 0xFFFF then
        Except.ok
          { st with winsize := updFd st.winsize p.master_fd (some (rows, cols)) }
      else Except.error "struct.error"
    | none => Except.ok st

/-- `json.loads` + key access on an inbound frame (line 201): yields the
decoded message, or raises on malformed input. -/
def decode_msg (raw : RawMsg) : Except String ClientMsg :=
  match raw with
  | .valid m => Except.ok m
  | .malformed => Except.error "json.JSONDecodeError"

/-- Result of one iteration of the `websocket_endpoint` receive loop:
the new state, the sends it performed, and whether the session is still open
(i.e. the loop will run another iteration for this client). -/
structure StepResult where
  state : ServerState
  deliveries : List Delivery
  sessionOpen : Bool

/-- One iteration of the receive loop (lines 199-227) for client `ws`:
decode the frame and dispatch it.  Only `WebSocketDisconnect` is caught, so a
decode error (or a `struct.error` from resize) propagates out of the loop;
the `finally` block then runs `leave`, and the session ends. -/
def session_step (st : ServerState) (room : String) (ws : Nat) (raw : RawMsg) :
    StepResult :=
  match decode_msg raw with
  | .error _ =>
    match leave st room ws with
    | .ok (st', ds) => ⟨st', ds, false⟩
    | .error _ => ⟨st, [], false⟩
  | .ok m =>
    match handle_msg st room m with
    | .ok st' => ⟨st', [], true⟩
    | .error _ =>
      match leave st room ws with
      | .ok (st', ds) => ⟨st', ds, false⟩
      | .error _ => ⟨st, [], false⟩

/-- One iteration of `read_pty`'s loop (lines 234-248): the loop runs only
while the room has a process entry; on nonempty bytes it broadcasts the
chunk decoded as UTF-8 with replacement and continues; on `b''` (child
exited) it breaks; on a select timeout it just sleeps and continues.
Returns (state, sends, whether the loop continues). -/
def read_pty_step (st : ServerState) (room : String) (ev : ReadEvent)
    (failing : Finset Nat) : ServerState × List Delivery × Bool :=
  if (st.pty_processes room).isSome then
    match ev with
    | .data bytes =>
      if bytes ≠ [] then
        let r := broadcast_output st room (utf8DecodeReplace bytes) failing
        (r.1, r.2, true)
      else (st, [], false)
    | .closed => (st, [], false)
    | .timeout => (st, [], true)
  else (st, [], false)

/-! ### Trace semantics for one room -/

/-- An externally visible event on one room: a client joins, a client's
connection ends (its `finally` block runs), or the pump reads a chunk of
bytes (with the given set of broken client connections). -/
inductive Ev where
  | join (ws : Nat)
  | leave (ws : Nat)
  | chunk (bytes : List Nat) (failing : Finset Nat)

/-- System state for a run: the server state plus a chronological log of
sends, each tagged with the index of the event that caused it. -/
structure SysState where
  state : ServerState
  log : List (Nat × Delivery)

/-- Process event number `t`. -/
def stepEv (room : String) (t : Nat) (sys : SysState) (e : Ev) : SysState :=
  match e with
  | .join ws =>
    let r := join sys.state room ws
    ⟨r.1, sys.log ++ r.2.map (fun d => (t, d))⟩
  | .leave ws =>
    match leave sys.state room ws with
    | .ok (st', ds) => ⟨st', sys.log ++ ds.map (fun d => (t, d))⟩
    | .error _ => sys
  | .chunk bytes failing =>
    let r := read_pty_step sys.state room (.data bytes) failing
    ⟨r.1, sys.log ++ r.2.1.map (fun d => (t, d))⟩

/-- The server's state at startup: empty dicts, no OS activity. -/
def initState : ServerState :=
  ⟨fun _ => none, fun _ => none, fun _ => none, [], [], [], 3, 1000⟩

/-- Run the events of a trace starting at event index `t`. -/
def runAux (room : String) : Nat → SysState → List Ev → SysState
  | _, sys, [] => sys
  | t, sys, e :: es => runAux room (t + 1) (stepEv room t sys e) es

/-- Run a trace of events on one room from server startup. -/
def run (room : String) (evs : List Ev) : SysState :=
  runAux room 0 ⟨initState, []⟩ evs

/-- Events that use only the join/disconnect paths of `websocket_endpoint`. -/
def JoinLeaveOnly : Ev → Prop
  | .join _ => True
  | .leave _ => True
  | .chunk _ _ => False

/-! ### Concrete states for witnesses and counterexamples -/

/-- A state with one room `"demo"` holding the single subscriber `0` and a
live PTY child (master fd 5, pid 100). -/
def stActive : ServerState where
  rooms := fun n => if n = "demo" then some {0} else none
  pty_processes := fun n => if n = "demo" then some ⟨5, 100⟩ else none
  winsize := fun _ => none
  ptyWrites := []
  killed := []
  closedFds := []
  nextFd := 6
  nextPid := 101

/-- A state in which room `"demo"` has been torn down: both dict entries are
gone, its child (pid 100) killed and master fd 5 closed. -/
def stGone : ServerState where
  rooms := fun _ => none
  pty_processes := fun _ => none
  winsize := fun _ => none
  ptyWrites := []
  killed := [100]
  closedFds := [5]
  nextFd := 6
  nextPid := 101

/-! ### Lemmas about the iteration order -/

theorem mem_members {s : Finset Nat} {a : Nat} : a ∈ members s ↔ a ∈ s := by
  unfold members
  simp only [List.mem_filter, List.mem_range, decide_eq_true_eq]
  constructor
  · exact fun h => h.2
  · intro h
    exact ⟨Nat.lt_succ_of_le (Finset.le_sup (f := id) h), h⟩

theorem members_nodup (s : Finset Nat) : (members s).Nodup :=
  (List.nodup_range _).filter _

theorem length_members (s : Finset Nat) : (members s).length = s.card := by
  have htf : (members s).toFinset = s := by
    ext a
    simp [List.mem_toFinset, mem_members]
  calc (members s).length = (members s).toFinset.card :=
        (List.toFinset_card_of_nodup (members_nodup s)).symm
    _ = s.card := by rw [htf]

theorem members_filter_not_mem_empty (s : Finset Nat) :
    (members s).filter (fun ws => decide (ws ∉ (∅ : Finset Nat))) = members s := by
  simp

/-! ### Basic lemmas about the operations -/

theorem updTable_same {β : Type} (f : String → Option β) (k : String)
    (v : Option β) : updTable f k v k = v := by
  simp [updTable]

theorem updTable_other {β : Type} (f : String → Option β) (k x : String)
    (v : Option β) (h : x ≠ k) : updTable f k v x = f x := by
  simp [updTable, h]

theorem broadcast_users_eq (st : ServerState) (room : String) (s : Finset Nat)
    (h : st.rooms room = some s) :
    broadcast_users st room =
      (members s).map (fun w => (w, OutMsg.users s.card)) := by
  unfold broadcast_users
  rw [h]

theorem join_fst_rooms (st : ServerState) (room : String) (ws : Nat) :
    (join st room ws).1.rooms =
      updTable st.rooms room (some (insert ws ((st.rooms room).getD ∅))) := by
  unfold join
  cases h : st.pty_processes room <;> simp [h]

theorem join_snd (st : ServerState) (room : String) (ws : Nat) :
    (join st room ws).2 = broadcast_users (join st room ws).1 room := by
  unfold join
  cases h : st.pty_processes room <;> simp [h]

theorem join_fst_pty_isSome (st : ServerState) (room : String) (ws : Nat) :
    ((join st room ws).1.pty_processes room).isSome := by
  unfold join
  cases h : st.pty_processes room <;> simp [h, updTable]

theorem join_fst_killed (st : ServerState) (room : String) (ws : Nat) :
    (join st room ws).1.killed = st.killed := by
  unfold join
  cases h : st.pty_processes room <;> simp [h]

theorem join_fst_closedFds (st : ServerState) (room : String) (ws : Nat) :
    (join st room ws).1.closedFds = st.closedFds := by
  unfold join
  cases h : st.pty_processes room <;> simp [h]

/-! ### Claim theorems -/

/-- Claim C1: after each join or leave on one room, the `users` message
broadcast carries exactly the current size of the subscriber set, and on a
join it goes to every subscriber including the newly joined one. -/
theorem users_count_is_set_size (st : ServerState) (room : String) (ws : Nat) :
    (∃ s', (join st room ws).1.rooms room = some s' ∧ ws ∈ s' ∧
      (join st room ws).2 =
        (members s').map (fun w => (w, OutMsg.users s'.card)) ∧
      (ws, OutMsg.users s'.card) ∈ (join st room ws).2) ∧
    (∀ s, st.rooms room = some s →
      ∃ st', leave st room ws = Except.ok (st',
        (members (s.erase ws)).map
          (fun w => (w, OutMsg.users (s.erase ws).card)))) := by
  constructor
  · refine ⟨insert ws ((st.rooms room).getD ∅), ?_,
      Finset.mem_insert_self ws _, ?_, ?_⟩
    · rw [join_fst_rooms, updTable_same]
    · rw [join_snd, broadcast_users_eq _ _ _ (by rw [join_fst_rooms, updTable_same])]
    · rw [join_snd, broadcast_users_eq _ _ _ (by rw [join_fst_rooms, updTable_same])]
      exact List.mem_map.mpr
        ⟨ws, mem_members.mpr (Finset.mem_insert_self ws _), rfl⟩
  · intro s h
    unfold leave
    simp only [h]
    have hb : broadcast_users
        { st with rooms := updTable st.rooms room (some (s.erase ws)) } room =
        (members (s.erase ws)).map
          (fun w => (w, OutMsg.users (s.erase ws).card)) :=
      broadcast_users_eq _ _ _ (updTable_same _ _ _)
    by_cases he : s.erase ws = ∅
    · simp only [if_pos he]
      cases hp : st.pty_processes room <;> simp only [hp] <;>
        exact ⟨_, by rw [hb]⟩
    · simp only [if_neg he]
      exact ⟨_, by rw [hb]⟩

theorem users_count_is_set_size_witness :
    stActive.rooms "demo" = some {0} ∧
    ∃ st', leave stActive "demo" 0 = Except.ok (st',
      (members (({0} : Finset Nat).erase 0)).map
        (fun w => (w, OutMsg.users (({0} : Finset Nat).erase 0).card))) :=
  ⟨rfl, (users_count_is_set_size stActive "demo" 0).2 {0} rfl⟩

/-- Claim C2 counterexample: the pump does not push the raw byte chunk; it
decodes it as UTF-8 with replacement.  For the chunk `[0xFF]` read from the
PTY, the only delivery carries U+FFFD, whose UTF-8 encoding `[EF, BF, BD]`
differs from the chunk — the bytes are transcoded, not passed through. -/
theorem output_chunk_transcoded :
    (read_pty_step stActive "demo" (ReadEvent.data [255]) ∅).2.1 =
      [(0, OutMsg.output [replacementChar])] ∧
    utf8Encode [replacementChar] ≠ [255] := by
  constructor
  · decide
  · decide

/-- Claim C2 (amended): on `n > 0` bytes read from the PTY the pump pushes
the chunk decoded as UTF-8 (invalid sequences replaced with U+FFFD) to every
currently subscribed client, one identical payload each. -/
theorem output_chunk_decoded_to_all (st : ServerState) (room : String)
    (s : Finset Nat) (bytes : List Nat) (h : st.rooms room = some s)
    (hp : (st.pty_processes room).isSome) (hb : bytes ≠ []) :
    (read_pty_step st room (.data bytes) ∅).2.1 =
      (members s).map (fun w => (w, OutMsg.output (utf8DecodeReplace bytes))) ∧
    ∀ w ∈ s, (w, OutMsg.output (utf8DecodeReplace bytes)) ∈
      (read_pty_step st room (.data bytes) ∅).2.1 := by
  have hmain : (read_pty_step st room (.data bytes) ∅).2.1 =
      (members s).map (fun w => (w, OutMsg.output (utf8DecodeReplace bytes))) := by
    unfold read_pty_step broadcast_output
    rw [if_pos hp]
    simp [hb, h, members_filter_not_mem_empty]
  refine ⟨hmain, fun w hw => ?_⟩
  rw [hmain]
  exact List.mem_map.mpr ⟨w, mem_members.mpr hw, rfl⟩

theorem output_chunk_decoded_to_all_witness :
    stActive.rooms "demo" = some {0} ∧
    (read_pty_step stActive "demo" (.data [104, 105]) ∅).2.1 =
      (members ({0} : Finset Nat)).map
        (fun w => (w, OutMsg.output (utf8DecodeReplace [104, 105]))) :=
  ⟨rfl, (output_chunk_decoded_to_all stActive "demo" {0} [104, 105] rfl
    (by decide) (by decide)).1⟩

/-- Claim C5 counterexample: when the PTY read reports closed the pump just
breaks out of its loop — the process entry is still in `pty_processes`, and
nothing has been killed or closed, contradicting the claimed teardown of the
process resource. -/
theorem pty_closed_leaves_process_entry :
    read_pty_step stActive "demo" ReadEvent.closed ∅ = (stActive, [], false) ∧
    stActive.pty_processes "demo" = some ⟨5, 100⟩ ∧
    stActive.killed = [] ∧ stActive.closedFds = [] :=
  ⟨rfl, rfl, rfl, rfl⟩

/-- Claim C5 (amended): when the PTY read reports closed the pump stops and
nothing else happens — state, registry entries, and OS logs are untouched;
the process entry is removed only by the normal disconnect path. -/
theorem pty_closed_stops_pump (st : ServerState) (room : String)
    (failing : Finset Nat) (hp : (st.pty_processes room).isSome) :
    read_pty_step st room ReadEvent.closed failing = (st, [], false) := by
  unfold read_pty_step
  rw [if_pos hp]

theorem pty_closed_stops_pump_witness :
    read_pty_step stActive "demo" ReadEvent.closed ∅ = (stActive, [], false) :=
  pty_closed_stops_pump stActive "demo" ∅ (by decide)

/-- Claim C7: in `broadcast_output` a failed send is caught per subscriber:
exactly the failing subscribers are removed from the set, every other
subscriber still receives the chunk, failing ones receive nothing, no other
state is touched, and the pump iteration still reports that it continues. -/
theorem delivery_failure_isolated (st : ServerState) (room : String)
    (data : List Char) (failing : Finset Nat) (s : Finset Nat)
    (h : st.rooms room = some s) :
    (broadcast_output st room data failing).1.rooms room = some (s \ failing) ∧
    (∀ other, other ≠ room →
      (broadcast_output st room data failing).1.rooms other = st.rooms other) ∧
    (broadcast_output st room data failing).1.pty_processes = st.pty_processes ∧
    (broadcast_output st room data failing).1.killed = st.killed ∧
    (broadcast_output st room data failing).1.closedFds = st.closedFds ∧
    (∀ w ∈ s, w ∉ failing →
      (w, OutMsg.output data) ∈ (broadcast_output st room data failing).2) ∧
    (∀ w ∈ failing,
      (w, OutMsg.output data) ∉ (broadcast_output st room data failing).2) ∧
    (∀ bytes : List Nat, bytes ≠ [] → (st.pty_processes room).isSome →
      (read_pty_step st room (.data bytes) failing).2.2 = true) := by
  unfold broadcast_output
  rw [h]
  refine ⟨by simp [updTable], fun other ho => by simp [updTable, ho], rfl, rfl, rfl,
    ?_, ?_, ?_⟩
  · intro w hw hnf
    simp only [List.mem_map, List.mem_filter, decide_eq_true_eq]
    exact ⟨w, ⟨mem_members.mpr hw, hnf⟩, rfl⟩
  · intro w hw hmem
    rw [List.mem_map] at hmem
    obtain ⟨w', hw', he⟩ := hmem
    rw [List.mem_filter, decide_eq_true_eq] at hw'
    have hwe : w' = w := congrArg Prod.fst he
    subst hwe
    exact hw'.2 hw
  · intro bytes hb hp
    unfold read_pty_step
    rw [if_pos hp]
    simp [hb]

theorem delivery_failure_isolated_witness :
    (broadcast_output stActive "demo" ['h'] {7}).1.rooms "demo" =
      some (({0} : Finset Nat) \ {7}) ∧
    (0, OutMsg.output ['h']) ∈ (broadcast_output stActive "demo" ['h'] {7}).2 := by
  have h := delivery_failure_isolated stActive "demo" ['h'] {7} {0} rfl
  exact ⟨h.1, h.2.2.2.2.2.1 0 (by decide) (by decide)⟩

/-- Claim C10: calling either broadcast for a room name with no entry in
`rooms` is a total silent no-op — state unchanged and nothing sent — and a
pump iteration after the room's entries were removed neither faults nor
delivers, it just stops. -/
theorem dead_room_broadcast_noop (st : ServerState) (room : String)
    (h : st.rooms room = none) :
    (∀ data failing, broadcast_output st room data failing = (st, [])) ∧
    broadcast_users st room = [] ∧
    (st.pty_processes room = none →
      ∀ ev failing, read_pty_step st room ev failing = (st, [], false)) := by
  refine ⟨fun data failing => ?_, ?_, fun hp ev failing => ?_⟩
  · unfold broadcast_output
    rw [h]
  · unfold broadcast_users
    rw [h]
  · unfold read_pty_step
    simp [hp]

/-- Claim C3 counterexample: a malformed inbound frame is fatal.  In a room
with the single subscriber `0`, one malformed frame ends the session
(`sessionOpen = false`); its uncaught decode error even drives the `finally`
path, so the room is torn down and the child killed — the opposite of
"dropped with a logged warning, connection stays open". -/
theorem malformed_msg_kills_session :
    (session_step stActive "demo" 0 RawMsg.malformed).sessionOpen = false ∧
    (session_step stActive "demo" 0 RawMsg.malformed).state.rooms "demo" = none ∧
    (session_step stActive "demo" 0 RawMsg.malformed).state.killed = [100] := by
  refine ⟨rfl, by decide, rfl⟩

/-- Claim C3 (amended): a malformed inbound frame raises an uncaught decode
error out of the receive loop: the session always ends, and the `finally`
block runs the normal leave path (or, when even the room entry is gone, the
`KeyError` leaves the state untouched). -/
theorem malformed_msg_ends_session (st : ServerState) (room : String)
    (ws : Nat) :
    (session_step st room ws RawMsg.malformed).sessionOpen = false ∧
    (∀ st' ds, leave st room ws = Except.ok (st', ds) →
      session_step st room ws RawMsg.malformed = ⟨st', ds, false⟩) ∧
    (∀ e, leave st room ws = Except.error e →
      session_step st room ws RawMsg.malformed = ⟨st, [], false⟩) := by
  refine ⟨?_, ?_, ?_⟩
  · unfold session_step decode_msg
    cases h : leave st room ws with
    | ok r => cases r; rfl
    | error e => rfl
  · intro st' ds h
    unfold session_step decode_msg
    rw [h]
  · intro e h
    unfold session_step decode_msg
    rw [h]

theorem malformed_msg_ends_session_witness :
    leave stGone "demo" 7 = Except.error "KeyError" ∧
    session_step stGone "demo" 7 RawMsg.malformed = ⟨stGone, [], false⟩ :=
  ⟨rfl, (malformed_msg_ends_session stGone "demo" 7).2.2 "KeyError" rfl⟩

/-- Claim C8 counterexample: operations addressed to the destroyed room
`"demo"` (entries removed, child killed) do not fail with any error: input
and resize return normally leaving the state untouched, the output broadcast
returns without sending, and the client's receive loop keeps running.  No
`RoomClosedError` exists anywhere in the code. -/
theorem gone_room_ops_return_normally :
    handle_msg stGone "demo" (ClientMsg.input ['l', 's']) = Except.ok stGone ∧
    handle_msg stGone "demo" (ClientMsg.resize 24 80) = Except.ok stGone ∧
    broadcast_output stGone "demo" ['h', 'i'] ∅ = (stGone, []) ∧
    (session_step stGone "demo" 0 (RawMsg.valid (ClientMsg.input ['l', 's']))).sessionOpen
      = true :=
  ⟨rfl, rfl, rfl, rfl⟩

/-- Claim C8 (amended): operations addressed to a room whose entries are gone
are silently ignored, with no error surfaced to the caller: input and resize
do nothing and the receive loop continues; the output broadcast returns
immediately with no sends. -/
theorem gone_room_ops_silently_ignored (st : ServerState) (room : String)
    (hr : st.rooms room = none) (hp : st.pty_processes room = none) :
    (∀ data, handle_msg st room (ClientMsg.input data) = Except.ok st) ∧
    (∀ rows cols, handle_msg st room (ClientMsg.resize rows cols) = Except.ok st) ∧
    (∀ ws data,
      session_step st room ws (RawMsg.valid (ClientMsg.input data)) = ⟨st, [], true⟩) ∧
    (∀ ws rows cols,
      session_step st room ws (RawMsg.valid (ClientMsg.resize rows cols)) =
        ⟨st, [], true⟩) ∧
    (∀ data failing, broadcast_output st room data failing = (st, [])) := by
  have hin : ∀ data, handle_msg st room (ClientMsg.input data) = Except.ok st := by
    intro data
    unfold handle_msg
    rw [hp]
  have hrs : ∀ rows cols,
      handle_msg st room (ClientMsg.resize rows cols) = Except.ok st := by
    intro rows cols
    unfold handle_msg
    rw [hp]
  refine ⟨hin, hrs, fun ws data => ?_, fun ws rows cols => ?_, fun data failing => ?_⟩
  · unfold session_step decode_msg
    simp only [hin data]
  · unfold session_step decode_msg
    simp only [hrs rows cols]
  · unfold broadcast_output
    rw [hr]

theorem gone_room_ops_silently_ignored_witness :
    handle_msg stGone "demo" (ClientMsg.input ['h']) = Except.ok stGone ∧
    session_step stGone "demo" 3 (RawMsg.valid (ClientMsg.resize 50 132)) =
      ⟨stGone, [], true⟩ := by
  have h := gone_room_ops_silently_ignored stGone "demo" rfl rfl
  exact ⟨h.1 ['h'], h.2.2.2.1 3 50 132⟩

/-- Process a list of resize requests in order (the receive loop handling a
sequence of `{'type':'resize'}` messages on one room); an exception from any
of them propagates. -/
def apply_resizes (st : ServerState) (room : String) :
    List (Nat × Nat) → Except String ServerState
  | [] => Except.ok st
  | q :: qs =>
    match handle_msg st room (ClientMsg.resize q.1 q.2) with
    | Except.ok st' => apply_resizes st' room qs
    | Except.error e => Except.error e

theorem resize_sets_winsize (st : ServerState) (room : String) (p : PtyProc)
    (rows cols : Nat) (hp : st.pty_processes room = some p)
    (hr : rows ≤ 0xFFFF) (hc : cols ≤ 0xFFFF) :
    handle_msg st room (ClientMsg.resize rows cols) =
      Except.ok { st with winsize := updFd st.winsize p.master_fd (some (rows, cols)) } := by
  unfold handle_msg
  rw [hp]
  simp only [if_pos (And.intro hr hc)]

/-- Claim C9 counterexample: a resize request whose rows do not fit in an
unsigned short does not set the geometry and does not "succeed without
error": `struct.pack('HHHH', …)` raises `struct.error`, which is uncaught
and ends the sender's session with the PTY geometry unchanged. -/
theorem resize_out_of_range_raises :
    handle_msg stActive "demo" (ClientMsg.resize 70000 80) =
      Except.error "struct.error" ∧
    (session_step stActive "demo" 0
      (RawMsg.valid (ClientMsg.resize 70000 80))).sessionOpen = false ∧
    (session_step stActive "demo" 0
      (RawMsg.valid (ClientMsg.resize 70000 80))).state.winsize 5 = none :=
  ⟨rfl, rfl, by decide⟩

/-- Claim C9 (amended): for resize requests whose rows and columns fit in an
unsigned short, any subscriber may resize and the PTY geometry afterwards is
exactly the last request — the handler does not depend on the sender — and a
resize repeating the current geometry succeeds and leaves the state
literally unchanged. -/
theorem resize_last_writer_wins (st : ServerState) (room : String)
    (p : PtyProc) (hp : st.pty_processes room = some p) :
    (∀ rows cols, rows ≤ 0xFFFF → cols ≤ 0xFFFF →
      ∃ st', handle_msg st room (ClientMsg.resize rows cols) = Except.ok st' ∧
        st'.winsize p.master_fd = some (rows, cols) ∧
        st'.pty_processes = st.pty_processes ∧ st'.rooms = st.rooms) ∧
    (∀ reqs q, reqs.getLast? = some q →
      (∀ r ∈ reqs, r.1 ≤ 0xFFFF ∧ r.2 ≤ 0xFFFF) →
      ∃ st', apply_resizes st room reqs = Except.ok st' ∧
        st'.winsize p.master_fd = some (q.1, q.2)) ∧
    (∀ ws rows cols st',
      handle_msg st room (ClientMsg.resize rows cols) = Except.ok st' →
      session_step st room ws (RawMsg.valid (ClientMsg.resize rows cols)) =
        ⟨st', [], true⟩) ∧
    (∀ rows cols, rows ≤ 0xFFFF → cols ≤ 0xFFFF →
      st.winsize p.master_fd = some (rows, cols) →
      handle_msg st room (ClientMsg.resize rows cols) = Except.ok st) := by
  refine ⟨?_, ?_, ?_, ?_⟩
  · intro rows cols hr hc
    exact ⟨_, resize_sets_winsize st room p rows cols hp hr hc,
      by simp [updFd], rfl, rfl⟩
  · -- induction over the request list, tracking the process entry
    suffices h : ∀ reqs (st₀ : ServerState), st₀.pty_processes room = some p →
        ∀ q, reqs.getLast? = some q →
        (∀ r ∈ reqs, r.1 ≤ 0xFFFF ∧ r.2 ≤ 0xFFFF) →
        ∃ st', apply_resizes st₀ room reqs = Except.ok st' ∧
          st'.winsize p.master_fd = some (q.1, q.2) by
      intro reqs q hq hin
      exact h reqs st hp q hq hin
    intro reqs
    induction reqs with
    | nil => intro st₀ _ q hq; cases hq
    | cons r rs ih =>
      intro st₀ hp₀ q hq hin
      have hb := hin r (List.mem_cons_self r rs)
      have hstep := resize_sets_winsize st₀ room p r.1 r.2 hp₀ hb.1 hb.2
      unfold apply_resizes
      rw [hstep]
      cases rs with
      | nil =>
        have hqr : q = r := by
          rw [List.getLast?_singleton] at hq
          exact (Option.some.injEq _ _ ▸ hq).symm
        subst hqr
        exact ⟨_, rfl, by simp [updFd]⟩
      | cons r₂ rs₂ =>
        have hq' : (r₂ :: rs₂).getLast? = some q := by
          rwa [List.getLast?_cons_cons] at hq
        exact ih _ (by simpa using hp₀) q hq'
          (fun x hx => hin x (List.mem_cons_of_mem r hx))
  · intro ws rows cols st' h
    unfold session_step decode_msg
    simp only [h]
  · intro rows cols hr hc hw
    rw [resize_sets_winsize st room p rows cols hp hr hc]
    congr 1
    have hfun : updFd st.winsize p.master_fd (some (rows, cols)) = st.winsize := by
      funext x
      unfold updFd
      by_cases hx : x = p.master_fd
      · subst hx
        rw [if_pos rfl, hw]
      · rw [if_neg hx]
    rw [hfun]

theorem resize_last_writer_wins_witness :
    ∃ st', apply_resizes stActive "demo" [(24, 80), (40, 120)] = Except.ok st' ∧
      st'.winsize 5 = some (40, 120) := by
  have h := (resize_last_writer_wins stActive "demo" ⟨5, 100⟩ rfl).2.1
    [(24, 80), (40, 120)] (40, 120) (by decide) (by decide)
  exact h

theorem dead_room_broadcast_noop_witness :
    broadcast_output stGone "demo" ['h', 'i'] ∅ = (stGone, []) ∧
    broadcast_users stGone "demo" = [] ∧
    read_pty_step stGone "demo" (.data [104]) ∅ = (stGone, [], false) := by
  have h := dead_room_broadcast_noop stGone "demo" rfl
  exact ⟨h.1 ['h', 'i'] ∅, h.2.1, h.2.2 rfl (.data [104]) ∅⟩

/-! ### Lemmas on the disconnect path, for the teardown claim -/

theorem leave_of_erase_empty (st : ServerState) (room : String) (ws : Nat)
    (s : Finset Nat) (p : PtyProc) (h : st.rooms room = some s)
    (hp : st.pty_processes room = some p) (he : s.erase ws = ∅) :
    ∃ st' ds, leave st room ws = Except.ok (st', ds) ∧
      st'.rooms room = none ∧ st'.pty_processes room = none ∧
      st'.killed = p.pid :: st.killed ∧
      st'.closedFds = p.master_fd :: st.closedFds := by
  unfold leave
  simp only [h, if_pos he, hp]
  exact ⟨_, _, rfl, by simp [updTable], by simp [updTable], rfl, rfl⟩

theorem leave_of_erase_nonempty (st : ServerState) (room : String) (ws : Nat)
    (s : Finset Nat) (h : st.rooms room = some s) (he : s.erase ws ≠ ∅) :
    ∃ st' ds, leave st room ws = Except.ok (st', ds) ∧
      st'.rooms room = some (s.erase ws) ∧
      st'.pty_processes = st.pty_processes ∧ st'.killed = st.killed ∧
      st'.closedFds = st.closedFds := by
  unfold leave
  simp only [h, if_neg he]
  exact ⟨_, _, rfl, by simp [updTable], rfl, rfl, rfl⟩

/-- Invariant of one room over join/leave traces: its two dict entries are
present or absent together, and a present subscriber set is nonempty. -/
def RoomInv (room : String) (st : ServerState) : Prop :=
  ((st.rooms room).isSome ↔ (st.pty_processes room).isSome) ∧
  ∀ s, st.rooms room = some s → s.Nonempty

theorem broadcast_output_no_room (st : ServerState) (room : String)
    (h : st.rooms room = none) (data : List Char) (failing : Finset Nat) :
    broadcast_output st room data failing = (st, []) := by
  unfold broadcast_output
  rw [h]

theorem read_pty_step_no_room_fst (st : ServerState) (room : String)
    (h : st.rooms room = none) (ev : ReadEvent) (failing : Finset Nat) :
    (read_pty_step st room ev failing).1 = st := by
  unfold read_pty_step
  by_cases hp : (st.pty_processes room).isSome
  · rw [if_pos hp]
    cases ev with
    | data bytes =>
      by_cases hb : bytes = []
      · simp [hb]
      · simp only [ne_eq, hb, not_false_iff, if_true,
          broadcast_output_no_room st room h]
    | closed => rfl
    | timeout => rfl
  · rw [if_neg hp]

theorem stepEv_join_state (room : String) (t : Nat) (sys : SysState)
    (ws : Nat) :
    (stepEv room t sys (Ev.join ws)).state = (join sys.state room ws).1 := rfl

theorem stepEv_chunk_state (room : String) (t : Nat) (sys : SysState)
    (bytes : List Nat) (failing : Finset Nat) :
    (stepEv room t sys (Ev.chunk bytes failing)).state =
      (read_pty_step sys.state room (.data bytes) failing).1 := rfl

theorem stepEv_leave_state_ok (room : String) (t : Nat) (sys : SysState)
    (ws : Nat) (st' : ServerState) (ds : List Delivery)
    (hok : leave sys.state room ws = Except.ok (st', ds)) :
    (stepEv room t sys (Ev.leave ws)).state = st' := by
  simp only [stepEv, hok]

theorem stepEv_leave_error (room : String) (t : Nat) (sys : SysState)
    (ws : Nat) (e : String)
    (herr : leave sys.state room ws = Except.error e) :
    stepEv room t sys (Ev.leave ws) = sys := by
  simp only [stepEv, herr]

theorem leave_preserves_inv (st : ServerState) (room : String) (ws : Nat)
    (hinv : RoomInv room st) (st' : ServerState) (ds : List Delivery)
    (hok : leave st room ws = Except.ok (st', ds)) : RoomInv room st' := by
  unfold leave at hok
  cases h : st.rooms room with
  | none =>
    rw [h] at hok
    cases hok
  | some s =>
    simp only [h] at hok
    by_cases he : s.erase ws = ∅
    · simp only [if_pos he] at hok
      cases hp : st.pty_processes room with
      | some p =>
        simp only [hp] at hok
        obtain ⟨hpr, -⟩ := Prod.mk.inj (Except.ok.inj hok)
        subst hpr
        refine ⟨by simp [updTable], fun s₀ hs₀ => ?_⟩
        simp [updTable] at hs₀
      | none =>
        simp only [hp] at hok
        obtain ⟨hpr, -⟩ := Prod.mk.inj (Except.ok.inj hok)
        subst hpr
        refine ⟨by simp [updTable, hp], fun s₀ hs₀ => ?_⟩
        simp [updTable] at hs₀
    · simp only [if_neg he] at hok
      obtain ⟨hpr, -⟩ := Prod.mk.inj (Except.ok.inj hok)
      subst hpr
      refine ⟨?_, fun s₀ hs₀ => ?_⟩
      · simp only [updTable_same, Option.isSome_some, true_iff]
        exact hinv.1.mp (by rw [h]; rfl)
      · simp only [updTable_same] at hs₀
        have hh := Option.some.inj hs₀
        subst hh
        exact Finset.nonempty_iff_ne_empty.mpr he

theorem stepEv_preserves_inv (room : String) (t : Nat) (sys : SysState)
    (e : Ev) (hjl : JoinLeaveOnly e) (hinv : RoomInv room sys.state) :
    RoomInv room (stepEv room t sys e).state := by
  cases e with
  | join ws =>
    rw [stepEv_join_state]
    refine ⟨?_, fun s hs => ?_⟩
    · rw [join_fst_rooms, updTable_same]
      simp only [Option.isSome_some, true_iff]
      exact join_fst_pty_isSome sys.state room ws
    · rw [join_fst_rooms, updTable_same] at hs
      cases hs
      exact Finset.insert_nonempty ws _
  | leave ws =>
    cases hok : leave sys.state room ws with
    | ok r =>
      cases r with
      | mk st' ds =>
        rw [stepEv_leave_state_ok room t sys ws st' ds hok]
        exact leave_preserves_inv sys.state room ws hinv st' ds hok
    | error e =>
      rw [stepEv_leave_error room t sys ws e hok]
      exact hinv
  | chunk bytes failing => cases hjl

theorem runAux_preserves_inv (room : String) (evs : List Ev) :
    ∀ (t : Nat) (sys : SysState), (∀ e ∈ evs, JoinLeaveOnly e) →
      RoomInv room sys.state → RoomInv room (runAux room t sys evs).state := by
  induction evs with
  | nil => exact fun t sys _ hinv => hinv
  | cons e es ih =>
    intro t sys hjl hinv
    exact ih (t + 1) (stepEv room t sys e)
      (fun x hx => hjl x (List.mem_cons_of_mem e hx))
      (stepEv_preserves_inv room t sys e (hjl e (List.mem_cons_self e es)) hinv)

theorem stepEv_no_room_no_create (room : String) (t : Nat) (sys : SysState)
    (e : Ev) (hj : ∀ ws, e ≠ Ev.join ws) (h : sys.state.rooms room = none) :
    (stepEv room t sys e).state.rooms room = none := by
  cases e with
  | join ws => exact absurd rfl (hj ws)
  | leave ws =>
    have herr : leave sys.state room ws = Except.error "KeyError" := by
      unfold leave
      rw [h]
    rw [stepEv_leave_error room t sys ws _ herr]
    exact h
  | chunk bytes failing =>
    rw [stepEv_chunk_state,
      read_pty_step_no_room_fst sys.state room h (.data bytes) failing]
    exact h

theorem no_join_no_entry (room : String) : ∀ (evs : List Ev) (t : Nat)
    (sys : SysState), sys.state.rooms room = none →
    ((runAux room t sys evs).state.rooms room).isSome →
    ∃ ws, Ev.join ws ∈ evs := by
  intro evs
  induction evs with
  | nil =>
    intro t sys h hs
    rw [show runAux room t sys [] = sys from rfl, h] at hs
    cases hs
  | cons e es ih =>
    intro t sys h hs
    by_cases hj : ∃ ws, e = Ev.join ws
    · obtain ⟨ws, rfl⟩ := hj
      exact ⟨ws, List.mem_cons_self _ _⟩
    · have hnone := stepEv_no_room_no_create room t sys e
        (fun ws hws => hj ⟨ws, hws⟩) h
      obtain ⟨ws, hws⟩ := ih (t + 1) (stepEv room t sys e) hnone hs
      exact ⟨ws, List.mem_cons_of_mem e hws⟩

/-! ### Lemmas on the event log, for the ordering claim -/

theorem runAux_append (room : String) (l1 l2 : List Ev) :
    ∀ (t : Nat) (sys : SysState),
      runAux room t sys (l1 ++ l2) =
        runAux room (t + l1.length) (runAux room t sys l1) l2 := by
  induction l1 with
  | nil => intro t sys; simp [runAux]
  | cons e l1' ih =>
    intro t sys
    rw [List.cons_append]
    show runAux room (t + 1) (stepEv room t sys e) (l1' ++ l2) = _
    rw [ih (t + 1) (stepEv room t sys e)]
    have h2 : t + (e :: l1').length = (t + 1) + l1'.length := by
      simp only [List.length_cons]
      omega
    rw [h2]
    rfl

theorem run_snoc (room : String) (evs : List Ev) (e : Ev) :
    run room (evs ++ [e]) = stepEv room evs.length (run room evs) e := by
  unfold run
  rw [runAux_append room evs [e] 0 ⟨initState, []⟩]
  simp [runAux]

theorem list_pairwise_of_total {α : Type} {R : α → α → Prop}
    (h : ∀ a b, R a b) : ∀ l : List α, l.Pairwise R
  | [] => List.Pairwise.nil
  | a :: l => List.Pairwise.cons (fun b _ => h a b) (list_pairwise_of_total h l)

theorem read_pty_deliveries_mem (st : ServerState) (room : String)
    (bytes : List Nat) (failing : Finset Nat) :
    ∀ d ∈ (read_pty_step st room (.data bytes) failing).2.1,
      ∃ s, st.rooms room = some s ∧ d.1 ∈ s := by
  intro d hd
  by_cases hp : (st.pty_processes room).isSome
  · simp only [read_pty_step, if_pos hp] at hd
    by_cases hb : bytes = []
    · simp [hb] at hd
    · rw [if_pos hb] at hd
      unfold broadcast_output at hd
      cases h : st.rooms room with
      | none =>
        rw [h] at hd
        cases hd
      | some s =>
        simp only [h] at hd
        refine ⟨s, rfl, ?_⟩
        rw [List.mem_map] at hd
        obtain ⟨w, hw, heq⟩ := hd
        rw [List.mem_filter] at hw
        have hwd : w = d.1 := congrArg Prod.fst heq
        rw [← hwd]
        exact mem_members.mp hw.1
  · simp only [read_pty_step, if_neg hp] at hd
    cases hd

theorem stepEv_log (room : String) (t : Nat) (sys : SysState) (e : Ev) :
    ∃ ds : List Delivery,
      (stepEv room t sys e).log = sys.log ++ ds.map (fun d => (t, d)) ∧
      ∀ d ∈ ds, ∀ bytes failing, e = Ev.chunk bytes failing →
        ∃ s, sys.state.rooms room = some s ∧ d.1 ∈ s := by
  cases e with
  | join ws =>
    exact ⟨(join sys.state room ws).2, rfl,
      fun d _ bytes failing he => Ev.noConfusion he⟩
  | leave ws =>
    cases hok : leave sys.state room ws with
    | ok r =>
      cases r with
      | mk st' ds0 =>
        refine ⟨ds0, ?_, fun d _ bytes failing he => Ev.noConfusion he⟩
        simp only [stepEv, hok]
    | error e0 =>
      refine ⟨[], ?_, fun d hd => absurd hd (List.not_mem_nil d)⟩
      rw [stepEv_leave_error room t sys ws e0 hok]
      simp
  | chunk bytes failing =>
    refine ⟨(read_pty_step sys.state room (.data bytes) failing).2.1, rfl,
      fun d hd bytes' failing' he => ?_⟩
    obtain ⟨hb, hf⟩ := Ev.chunk.inj he
    subst hb
    subst hf
    exact read_pty_deliveries_mem sys.state room bytes failing d hd

/-- The subscriber set of one room in a running system. -/
def roomSet (room : String) (sys : SysState) : Finset Nat :=
  (sys.state.rooms room).getD ∅

theorem roomSet_join (room : String) (t : Nat) (sys : SysState) (ws : Nat) :
    roomSet room (stepEv room t sys (Ev.join ws)) =
      insert ws (roomSet room sys) := by
  unfold roomSet
  rw [stepEv_join_state, join_fst_rooms, updTable_same]
  rfl

theorem leave_ok_rooms (st : ServerState) (room : String) (ws : Nat)
    (st' : ServerState) (ds : List Delivery)
    (hok : leave st room ws = Except.ok (st', ds)) :
    ∃ s, st.rooms room = some s ∧
      (st'.rooms room = none ∨ st'.rooms room = some (s.erase ws)) := by
  unfold leave at hok
  cases h : st.rooms room with
  | none =>
    rw [h] at hok
    cases hok
  | some s =>
    simp only [h] at hok
    by_cases he : s.erase ws = ∅
    · simp only [if_pos he] at hok
      cases hp : st.pty_processes room <;> simp only [hp] at hok <;>
        (obtain ⟨hpr, -⟩ := Prod.mk.inj (Except.ok.inj hok); subst hpr;
          exact ⟨s, rfl, Or.inl (by simp [updTable])⟩)
    · simp only [if_neg he] at hok
      obtain ⟨hpr, -⟩ := Prod.mk.inj (Except.ok.inj hok)
      subst hpr
      exact ⟨s, rfl, Or.inr (updTable_same _ _ _)⟩

theorem roomSet_leave_subset (room : String) (t : Nat) (sys : SysState)
    (ws : Nat) :
    roomSet room (stepEv room t sys (Ev.leave ws)) ⊆ roomSet room sys := by
  cases hok : leave sys.state room ws with
  | error e =>
    rw [stepEv_leave_error room t sys ws e hok]
  | ok r =>
    cases r with
    | mk st' ds =>
      unfold roomSet
      rw [stepEv_leave_state_ok room t sys ws st' ds hok]
      obtain ⟨s, hs, hor⟩ := leave_ok_rooms sys.state room ws st' ds hok
      rw [hs]
      rcases hor with h | h
      · rw [h]
        exact Finset.empty_subset s
      · rw [h]
        exact Finset.erase_subset ws s

theorem roomSet_chunk_subset (room : String) (t : Nat) (sys : SysState)
    (bytes : List Nat) (failing : Finset Nat) :
    roomSet room (stepEv room t sys (Ev.chunk bytes failing)) ⊆
      roomSet room sys := by
  unfold roomSet
  rw [stepEv_chunk_state]
  by_cases hp : (sys.state.pty_processes room).isSome
  · simp only [read_pty_step, if_pos hp]
    by_cases hb : bytes = []
    · simp [hb]
    · rw [if_pos hb]
      unfold broadcast_output
      cases h : sys.state.rooms room with
      | none => rw [h]
      | some s =>
        simp only [h, updTable_same]
        exact Finset.sdiff_subset
  · simp only [read_pty_step, if_neg hp]
    exact subset_refl _

theorem run_log_facts (room : String) (evs : List Ev) :
    ((run room evs).log.Pairwise fun a b => a.1 ≤ b.1) ∧
    (∀ en ∈ (run room evs).log, en.1 < evs.length) ∧
    (∀ ws ∈ roomSet room (run room evs),
      ∃ k, k < evs.length ∧ evs[k]? = some (Ev.join ws)) ∧
    (∀ i ws m bytes failing, (i, (ws, m)) ∈ (run room evs).log →
      evs[i]? = some (Ev.chunk bytes failing) →
      ∃ k, k < i ∧ evs[k]? = some (Ev.join ws)) := by
  induction evs using List.reverseRecOn with
  | nil =>
    refine ⟨List.Pairwise.nil, ?_, ?_, ?_⟩
    · intro en hen
      cases hen
    · intro ws hws
      simp [roomSet, run, runAux, initState] at hws
    · intro i ws m bytes failing hmem
      cases hmem
  | append_singleton l e ih =>
    obtain ⟨ihP1, ihP2, ihP3, ihP4⟩ := ih
    obtain ⟨ds, hlog, hds⟩ := stepEv_log room l.length (run room l) e
    have hrun : run room (l ++ [e]) = stepEv room l.length (run room l) e :=
      run_snoc room l e
    have hlen : (l ++ [e]).length = l.length + 1 := by simp
    refine ⟨?_, ?_, ?_, ?_⟩
    · rw [hrun, hlog]
      refine List.pairwise_append.mpr ⟨ihP1, ?_, ?_⟩
      · exact List.pairwise_map.mpr
          (list_pairwise_of_total (fun _ _ => le_refl _) ds)
      · intro a ha b hb
        obtain ⟨d, -, rfl⟩ := List.mem_map.mp hb
        exact le_of_lt (ihP2 a ha)
    · intro en hen
      rw [hrun, hlog] at hen
      rw [hlen]
      rcases List.mem_append.mp hen with h | h
      · exact Nat.lt_succ_of_lt (ihP2 en h)
      · obtain ⟨d, -, rfl⟩ := List.mem_map.mp h
        exact Nat.lt_succ_self _
    · intro ws hws
      rw [hrun] at hws
      cases e with
      | join ws' =>
        rw [roomSet_join] at hws
        rcases Finset.mem_insert.mp hws with rfl | hmem
        · refine ⟨l.length, by rw [hlen]; exact Nat.lt_succ_self _, ?_⟩
          rw [List.getElem?_concat_length]
        · obtain ⟨k, hk, hget⟩ := ihP3 ws hmem
          exact ⟨k, by rw [hlen]; exact Nat.lt_succ_of_lt hk,
            by rw [List.getElem?_append_left hk]; exact hget⟩
      | leave ws' =>
        obtain ⟨k, hk, hget⟩ :=
          ihP3 ws (roomSet_leave_subset room l.length (run room l) ws' hws)
        exact ⟨k, by rw [hlen]; exact Nat.lt_succ_of_lt hk,
          by rw [List.getElem?_append_left hk]; exact hget⟩
      | chunk bytes failing =>
        obtain ⟨k, hk, hget⟩ := ihP3 ws
          (roomSet_chunk_subset room l.length (run room l) bytes failing hws)
        exact ⟨k, by rw [hlen]; exact Nat.lt_succ_of_lt hk,
          by rw [List.getElem?_append_left hk]; exact hget⟩
    · intro i ws m bytes failing hmem hget
      rw [hrun, hlog] at hmem
      rcases List.mem_append.mp hmem with h | h
      · have hi : i < l.length := ihP2 _ h
        rw [List.getElem?_append_left hi] at hget
        obtain ⟨k, hk, hgk⟩ := ihP4 i ws m bytes failing h hget
        exact ⟨k, hk,
          by rw [List.getElem?_append_left (lt_trans hk hi)]; exact hgk⟩
      · obtain ⟨d, hd, heq⟩ := List.mem_map.mp h
        obtain ⟨hi, hd2⟩ := Prod.mk.inj heq
        subst hi
        subst hd2
        rw [List.getElem?_concat_length] at hget
        have he : e = Ev.chunk bytes failing := Option.some.inj hget
        obtain ⟨s, hs, hmem_s⟩ := hds (ws, m) hd bytes failing he
        have hws' : ws ∈ roomSet room (run room l) := by
          unfold roomSet
          rw [hs]
          exact hmem_s
        obtain ⟨k, hk, hgk⟩ := ihP3 ws hws'
        exact ⟨k, hk, by rw [List.getElem?_append_left hk]; exact hgk⟩

/-- Claim C6: the delivery log of any trace is chronologically ordered by the
index of the generating event — so for two chunks `c1` (event `i`) then `c2`
(event `j > i`), any subscriber's delivery of `c1` precedes its delivery of
`c2`, since each WebSocket receives its sends in log order — and a delivery
of a chunk event `i` can only go to a client that joined at some event
`k < i`: a subscriber that joins strictly after `c1` was broadcast never
receives `c1`. -/
theorem output_order_per_subscriber (room : String) (evs : List Ev) :
    ((run room evs).log.Pairwise fun a b => a.1 ≤ b.1) ∧
    (∀ i ws m bytes failing, (i, (ws, m)) ∈ (run room evs).log →
      evs[i]? = some (Ev.chunk bytes failing) →
      ∃ k, k < i ∧ evs[k]? = some (Ev.join ws)) :=
  ⟨(run_log_facts room evs).1, (run_log_facts room evs).2.2.2⟩

theorem output_order_per_subscriber_witness :
    ∃ k, k < 1 ∧
      [Ev.join 0, Ev.chunk [104] ∅][k]? = some (Ev.join 0) := by
  refine (output_order_per_subscriber "demo"
    [Ev.join 0, Ev.chunk [104] ∅]).2 1 0 (OutMsg.output ['h']) [104] ∅ ?_ ?_
  · show (1, (0, OutMsg.output ['h'])) ∈
      (run "demo" [Ev.join 0, Ev.chunk [104] ∅]).log
    decide
  · rfl

/-- Claim C4: teardown happens exactly when a leave empties the subscriber
set.  (a) such a leave removes both dict entries, kills the child and closes
the master fd; (b) any other leave removes only the subscriber, touching no
process state; (c) leaving with an absent subscriber never changes the count
and, in a nonempty room, never triggers teardown (idempotence); (d) a join
never tears anything down; (e) over any join/leave trace the two entries are
present or absent together and a present set is nonempty (so count zero is
exactly the torn-down state); (f) a present entry means at least one client
joined. -/
theorem teardown_iff_last_leave (room : String) :
    (∀ st ws s p, st.rooms room = some s → st.pty_processes room = some p →
      s.erase ws = ∅ →
      ∃ st' ds, leave st room ws = Except.ok (st', ds) ∧
        st'.rooms room = none ∧ st'.pty_processes room = none ∧
        st'.killed = p.pid :: st.killed ∧
        st'.closedFds = p.master_fd :: st.closedFds) ∧
    (∀ st ws s, st.rooms room = some s → s.erase ws ≠ ∅ →
      ∃ st' ds, leave st room ws = Except.ok (st', ds) ∧
        st'.rooms room = some (s.erase ws) ∧
        st'.pty_processes = st.pty_processes ∧ st'.killed = st.killed ∧
        st'.closedFds = st.closedFds) ∧
    (∀ st ws s, st.rooms room = some s → ws ∉ s →
      (s.erase ws).card = s.card ∧
      (s.Nonempty →
        ∃ st' ds, leave st room ws = Except.ok (st', ds) ∧
          st'.rooms room = some s ∧ st'.pty_processes = st.pty_processes ∧
          st'.killed = st.killed ∧ st'.closedFds = st.closedFds)) ∧
    (∀ st ws, ((join st room ws).1.rooms room).isSome ∧
      ((join st room ws).1.pty_processes room).isSome ∧
      (join st room ws).1.killed = st.killed ∧
      (join st room ws).1.closedFds = st.closedFds) ∧
    (∀ evs, (∀ e ∈ evs, JoinLeaveOnly e) →
      ((((run room evs).state.rooms room).isSome ↔
        ((run room evs).state.pty_processes room).isSome) ∧
      ∀ s, (run room evs).state.rooms room = some s → s.Nonempty)) ∧
    (∀ evs, ((run room evs).state.rooms room).isSome →
      ∃ ws, Ev.join ws ∈ evs) := by
  refine ⟨fun st ws s p h hp he => leave_of_erase_empty st room ws s p h hp he,
    fun st ws s h he => leave_of_erase_nonempty st room ws s h he,
    fun st ws s h hws => ?_, fun st ws => ?_, fun evs hjl => ?_, fun evs hs => ?_⟩
  · have herase : s.erase ws = s := Finset.erase_eq_of_not_mem hws
    refine ⟨by rw [herase], fun hne => ?_⟩
    have he : s.erase ws ≠ ∅ := by
      rw [herase]
      exact Finset.nonempty_iff_ne_empty.mp hne
    obtain ⟨st', ds, hok, hr, hpp, hk, hc⟩ :=
      leave_of_erase_nonempty st room ws s h he
    exact ⟨st', ds, hok, by rw [hr, herase], hpp, hk, hc⟩
  · exact ⟨by rw [join_fst_rooms, updTable_same]; rfl,
      join_fst_pty_isSome st room ws, join_fst_killed st room ws,
      join_fst_closedFds st room ws⟩
  · exact runAux_preserves_inv room evs 0 ⟨initState, []⟩ hjl
      ⟨by simp [initState], fun s hs => by simp [initState] at hs⟩
  · exact no_join_no_entry room evs 0 ⟨initState, []⟩ rfl hs

theorem teardown_iff_last_leave_witness :
    (∃ st' ds, leave stActive "demo" 0 = Except.ok (st', ds) ∧
      st'.rooms "demo" = none ∧ st'.pty_processes "demo" = none ∧
      st'.killed = [100] ∧ st'.closedFds = [5]) ∧
    (∃ ws, Ev.join ws ∈ [Ev.join 2]) := by
  have h := teardown_iff_last_leave "demo"
  refine ⟨?_, h.2.2.2.2.2 [Ev.join 2] (by decide)⟩
  obtain ⟨st', ds, hok, hr, hpp, hk, hc⟩ :=
    h.1 stActive 0 {0} ⟨5, 100⟩ rfl rfl (by decide)
  exact ⟨st', ds, hok, hr, hpp, hk, hc⟩

end CollabTerm
